import Mathlib

/-!
# Verification of the in-memory key-value HTTP server (`main.go`)

The development embeds the four request handlers of `main.go` together with
`NewServer` as pure functions over an explicit server state, and proves the
contract of the store against that embedding.

Modelling conventions:

* A Go `string` is a sequence of bytes (`GoString`); `len` is the number of bytes
  and `str[n:]` drops the first `n` bytes. Text literals of the source are the
  UTF-8 bytes of the literal (`utf8`).
* A Go `map[string]string` is an association list with pairwise distinct keys
  (`AList`); `m[k] = v` is `AList.insert`, `delete(m, k)` is `AList.erase`,
  `v, ok := m[k]` is `AList.lookup` and `len(m)` is the number of entries.
* A Go `int` is a 64-bit two's complement integer (`GoInt`): the integers from
  `MinInt` to `MaxInt`, with `++` wrapping from `MaxInt` around to `MinInt`.
* The handlers run under `s.mu`; one handler call is one atomic step on the
  state. The lock itself and `shutdownCh` carry no data and are not part of the
  state.
* The decoder of `encoding/json` is a parameter of the model (`Decoder`).
* A run-time panic (slice bounds out of range) is the result `none`.
-/

namespace KVServer

/-! ## Data model -/

/-- A Go `string`: an immutable sequence of bytes. -/
abbrev GoString := List UInt8

/-- The Go string holding the UTF-8 encoding of a text, as a string literal of the
source does. -/
def utf8 (text : String) : GoString := text.data.flatMap String.utf8EncodeChar

/-- The constant `math.MaxInt` of a 64-bit `int`: 2^63 - 1. -/
def MaxInt : Int := 9223372036854775807

/-- The constant `math.MinInt` of a 64-bit `int`: -2^63. -/
def MinInt : Int := -9223372036854775808

/-- The value a 64-bit `int` holds after an arithmetic result `x`: `x` reduced
modulo 2^64 into the range from `MinInt` to `MaxInt`. -/
def wrapInt (x : Int) : Int := (x - MinInt) % 18446744073709551616 + MinInt

/-- A Go `int` (64 bits): an integer from `MinInt` to `MaxInt`. -/
abbrev GoInt := { x : Int // MinInt ≤ x ∧ x ≤ MaxInt }

/-- The statement `x++` on an `int`: add one, wrapping around on overflow. -/
def GoInt.incr (x : GoInt) : GoInt :=
  ⟨wrapInt (x.val + 1), by unfold wrapInt MinInt MaxInt; omega⟩

/-- Go's `map[string]string`. -/
abbrev StringMap := AList (fun _ : GoString => GoString)

/-- The `Server` struct: the `data` map and the `requests` counter. -/
structure Server where
  data : StringMap
  requests : GoInt

/-- The parts of `*http.Request` the handlers read: `r.URL.Path` and `r.Body`. -/
structure Request where
  path : GoString
  body : GoString

/-- What a handler has written to its `http.ResponseWriter` when it returns. -/
structure Response where
  status : Nat
  body : GoString
deriving DecidableEq

/-- The constant `http.StatusOK`. -/
def StatusOK : Nat := 200

/-- The constant `http.StatusBadRequest`. -/
def StatusBadRequest : Nat := 400

/-- The constant `http.StatusNotFound`. -/
def StatusNotFound : Nat := 404

/-- The result of `json.NewDecoder(r.Body).Decode(&data)` for a
`map[string]string` target: the decoded map, or `err.Error()`. -/
abbrev Decoder := GoString → Except GoString StringMap

/-! ## Library primitives used by the handlers -/

/-- Go's builtin `len` on a string: its length in bytes. -/
def len (str : GoString) : Nat := str.length

/-- Go's slice expression `str[n:]`: panics (`none`) when `n > len(str)`,
otherwise the bytes of `str` from offset `n` on. -/
def sliceFrom (str : GoString) (n : Nat) : Option GoString :=
  if n ≤ len str then some (str.drop n) else none

/-- The response of a handler that returns without writing: status 200 and an
empty body. -/
def noContent : Response := { status := StatusOK, body := [] }

/-- The library call `http.Error(w, error, code)`: it sets the status code and
writes the message with `fmt.Fprintln(w, error)`, that is, followed by a line
feed. -/
def httpError (error : GoString) (code : Nat) : Response :=
  { status := code, body := error ++ utf8 "\n" }

/-- The call `fmt.Fprintf(w, "%s", value)` on a fresh writer: the implicit status
200 and exactly the bytes of the value as body. -/
def writeString (value : GoString) : Response :=
  { status := StatusOK, body := value }

/-- The text `fmt.Sprintf("Requests: %d, Data size: %d\n", requests, size)`. -/
def statsLine (requests : Int) (size : Nat) : GoString :=
  utf8 ("Requests: " ++ toString requests ++ ", Data size: " ++ toString size ++ "\n")

/-! ## The program -/

/-- Function `NewServer`: an empty map and the zero value of the counter. -/
def NewServer : Server := { data := ∅, requests := ⟨0, by decide⟩ }

/-- The loop `for k, v := range data { s.data[k] = v }` of `postDataHandler`. -/
def mergeInto (dst src : StringMap) : StringMap :=
  src.entries.foldl (fun m e => m.insert e.1 e.2) dst

/-- Handler `postDataHandler`: decode the body; on failure answer 400 with the error
text and return, otherwise copy every pair into `s.data` and increment
`s.requests`. -/
def postDataHandler (decode : Decoder) (s : Server) (r : Request) : Server × Response :=
  match decode r.body with
  | .error err => (s, httpError err StatusBadRequest)
  | .ok data => ({ data := mergeInto s.data data, requests := s.requests.incr }, noContent)

/-- Handler `getDataHandler`: the key is `r.URL.Path[len("/data/"):]`; answer 404 when the
key is absent, otherwise write the value. The state is only read. -/
def getDataHandler (s : Server) (r : Request) : Option Response :=
  match sliceFrom r.path (len (utf8 "/data/")) with
  | none => none
  | some key =>
    match s.data.lookup key with
    | none => some (httpError (utf8 "Key not found") StatusNotFound)
    | some value => some (writeString value)

/-- Handler `statsHandler`: write the counter and `len(s.data)`. -/
def statsHandler (s : Server) (_r : Request) : Response :=
  writeString (statsLine s.requests.val s.data.entries.length)

/-- Handler `deleteDataHandler`: the key is `r.URL.Path[len("/data/"):]`; delete it from
`s.data`. Nothing is written to the response. -/
def deleteDataHandler (s : Server) (r : Request) : Option (Server × Response) :=
  match sliceFrom r.path (len (utf8 "/data/")) with
  | none => none
  | some key => some ({ data := s.data.erase key, requests := s.requests }, noContent)

/-! ## Sequences of requests -/

/-- One handler invocation. -/
inductive Op where
  | post (r : Request)
  | get (r : Request)
  | stats (r : Request)
  | delete (r : Request)

/-- The state after one handler invocation. A handler that panics has not
changed the state (the slice expression precedes every write). -/
def step (decode : Decoder) (s : Server) : Op → Server
  | .post r => (postDataHandler decode s r).1
  | .get _ => s
  | .stats _ => s
  | .delete r =>
    match deleteDataHandler s r with
    | some (t, _) => t
    | none => s

/-- The state after a sequence of handler invocations, in order. -/
def run (decode : Decoder) (s : Server) (ops : List Op) : Server :=
  ops.foldl (step decode) s

/-- The map an operation upserts: the decoded body of an accepted POST. -/
def upserted (decode : Decoder) : Op → Option StringMap
  | .post r =>
    match decode r.body with
    | .ok data => some data
    | .error _ => none
  | _ => none

/-- The operation is an accepted upsert whose pairs contain key `k`. -/
def upsertsKey (decode : Decoder) (k : GoString) (op : Op) : Bool :=
  match upserted decode op with
  | some data => decide (k ∈ data)
  | none => false

/-- The operation is a delete whose path yields key `k`. -/
def deletesKey (k : GoString) : Op → Bool
  | .delete r => decide (sliceFrom r.path (len (utf8 "/data/")) = some k)
  | _ => false

/-- The operation is a call of `deleteDataHandler`. -/
def isDelete : Op → Bool
  | .delete _ => true
  | _ => false

/-- Number of accepted upserts in a sequence. -/
def acceptedCount (decode : Decoder) (ops : List Op) : Nat :=
  (ops.filter fun op => (upserted decode op).isSome).length

/-- Every key occurring in an accepted upsert of the sequence (with repetition). -/
def upsertedKeys (decode : Decoder) (ops : List Op) : List GoString :=
  ops.flatMap fun op =>
    match upserted decode op with
    | some data => data.keys
    | none => []

/-- The request path `/data/<key>`. -/
def keyPath (key : GoString) : GoString := utf8 "/data/" ++ key

/-! ## Concrete requests and states -/

/-- The map `{"a": "1", "b": "2"}`. -/
def pairsAB : StringMap :=
  AList.insert (utf8 "a") (utf8 "1") (AList.insert (utf8 "b") (utf8 "2") ∅)

/-- The body `{"a":"1","b":"2"}`. -/
def bodyAB : GoString := utf8 "\x7b\"a\":\"1\",\"b\":\"2\"\x7d"

/-- The body `{"a":"1"}`. -/
def bodyA : GoString := utf8 "\x7b\"a\":\"1\"\x7d"

/-- The body `{"b":"2"}`. -/
def bodyB : GoString := utf8 "\x7b\"b\":\"2\"\x7d"

/-- The body `{"":"v"}`. -/
def bodyEmptyKey : GoString := utf8 "\x7b\"\":\"v\"\x7d"

/-- The body `{}`. -/
def bodyEmpty : GoString := utf8 "\x7b\x7d"

/-- The malformed body `not-json`. -/
def bodyNotJson : GoString := utf8 "not-json"

/-- A decoder for concrete runs: it decodes the five bodies above and rejects every
other body with the error text `encoding/json` gives for `not-json`. -/
def sampleDecode : Decoder := fun body =>
  if body = bodyAB then .ok pairsAB
  else if body = bodyA then .ok (AList.singleton (utf8 "a") (utf8 "1"))
  else if body = bodyB then .ok (AList.singleton (utf8 "b") (utf8 "2"))
  else if body = bodyEmptyKey then .ok (AList.singleton [] (utf8 "v"))
  else if body = bodyEmpty then .ok ∅
  else .error (utf8 "invalid character \x27o\x27 in literal null (expecting \x27u\x27)")

/-- A store holding `a` with value `0` and `c` with value `3`, after 7 accepted
upserts. -/
def storeAC : Server :=
  { data := AList.insert (utf8 "a") (utf8 "0") (AList.insert (utf8 "c") (utf8 "3") ∅),
    requests := ⟨7, by decide⟩ }

/-- An empty store whose counter has reached `MaxInt`. -/
def maxedServer : Server := { data := ∅, requests := ⟨MaxInt, by decide⟩ }

/-- The sequence of 2^63 POST requests with body `{}`. -/
def manyPosts : List Op :=
  List.replicate 9223372036854775808 (Op.post ⟨utf8 "/data", bodyEmpty⟩)

/-! ## Facts about the primitives -/

/-- The slice of `/data/<key>` at `len("/data/")` is in range and is `key`. -/
theorem sliceFrom_keyPath (key : GoString) :
    sliceFrom (keyPath key) (len (utf8 "/data/")) = some key := by
  unfold sliceFrom keyPath len
  rw [if_pos (by simp), List.drop_left]

/-- A value in the range of `int` is not changed by wrapping. -/
theorem wrapInt_of_range (x : Int) (h : MinInt ≤ x ∧ x ≤ MaxInt) : wrapInt x = x := by
  unfold MinInt MaxInt at h
  unfold wrapInt MinInt
  omega

/-- Wrapping after each addition is wrapping once at the end. -/
theorem wrapInt_add (a b : Int) : wrapInt (wrapInt a + b) = wrapInt (a + b) := by
  unfold wrapInt MinInt
  omega

/-- Below `MaxInt` the increment is the successor. -/
theorem incr_of_lt (x : GoInt) (h : x.val < MaxInt) : x.incr.val = x.val + 1 :=
  wrapInt_of_range _ ⟨by have := x.property.1; omega, by omega⟩

/-- At `MaxInt` the increment wraps around to `MinInt`. -/
theorem incr_of_eq (x : GoInt) (h : x.val = MaxInt) : x.incr.val = MinInt := by
  show wrapInt (x.val + 1) = MinInt
  rw [h]
  decide

theorem toString_natCast (n : Nat) : toString (n : Int) = toString n := rfl

/-! ## Facts about the map operations -/

/-- The range loop leaves a key that is not among the copied pairs as it was. -/
theorem lookup_foldl_insert_of_not_mem (l : List (Sigma fun _ : GoString => GoString))
    (m : StringMap) (k : GoString) (hk : k ∉ l.keys) :
    (l.foldl (fun m e => m.insert e.1 e.2) m).lookup k = m.lookup k := by
  induction l generalizing m with
  | nil => rfl
  | cons e l ih =>
    rw [List.keys_cons, List.mem_cons, not_or] at hk
    rw [List.foldl_cons, ih _ hk.2, AList.lookup_insert_ne hk.1]

/-- The range loop stores, for a key among the copied pairs, the value paired with it. -/
theorem lookup_foldl_insert_of_dlookup (l : List (Sigma fun _ : GoString => GoString))
    (hl : l.NodupKeys) (m : StringMap) (k v : GoString) (hv : l.dlookup k = some v) :
    (l.foldl (fun m e => m.insert e.1 e.2) m).lookup k = some v := by
  induction l generalizing m with
  | nil => simp at hv
  | cons e l ih =>
    obtain ⟨e1, e2⟩ := e
    rw [List.nodupKeys_cons] at hl
    rw [List.foldl_cons]
    by_cases hke : k = e1
    · subst hke
      rw [List.dlookup_cons_eq] at hv
      rw [lookup_foldl_insert_of_not_mem l _ k hl.1]
      simpa using hv
    · rw [List.dlookup_cons_ne _ _ hke] at hv
      exact ih hl.2 _ hv

theorem lookup_mergeInto_of_lookup (dst src : StringMap) (k v : GoString)
    (hv : src.lookup k = some v) : (mergeInto dst src).lookup k = some v :=
  lookup_foldl_insert_of_dlookup src.entries src.nodupKeys dst k v hv

theorem lookup_mergeInto_of_not_mem (dst src : StringMap) (k : GoString) (hk : k ∉ src) :
    (mergeInto dst src).lookup k = dst.lookup k :=
  lookup_foldl_insert_of_not_mem src.entries dst k hk

theorem mem_mergeInto (dst src : StringMap) (k : GoString) :
    k ∈ mergeInto dst src ↔ k ∈ dst ∨ k ∈ src := by
  by_cases hk : k ∈ src
  · obtain ⟨v, hv⟩ := Option.isSome_iff_exists.mp (AList.lookup_isSome.mpr hk)
    have h := lookup_mergeInto_of_lookup dst src k v hv
    have : k ∈ mergeInto dst src := AList.lookup_isSome.mp (by rw [h]; rfl)
    simp [this, hk]
  · rw [← AList.lookup_isSome, lookup_mergeInto_of_not_mem dst src k hk, AList.lookup_isSome]
    simp [hk]

/-- Builtin `len` of a map is the number of its distinct keys. -/
theorem size_eq_card (m : StringMap) : m.entries.length = m.keys.toFinset.card := by
  rw [List.toFinset_card_of_nodup m.keys_nodup, AList.keys, List.keys, List.length_map]

theorem keys_mergeInto (dst src : StringMap) :
    (mergeInto dst src).keys.toFinset = dst.keys.toFinset ∪ src.keys.toFinset := by
  ext k
  simp only [List.mem_toFinset, Finset.mem_union, ← AList.mem_keys, mem_mergeInto]

theorem lookup_singleton_self (k v : GoString) :
    (AList.singleton k v : StringMap).lookup k = some v := by
  simp [AList.lookup, AList.singleton]

theorem erase_of_not_mem (m : StringMap) (k : GoString) (hk : k ∉ m) : m.erase k = m :=
  AList.ext (List.kerase_of_not_mem_keys hk)

theorem erase_erase_self (m : StringMap) (k : GoString) : (m.erase k).erase k = m.erase k :=
  erase_of_not_mem _ _ (by simp [AList.mem_erase])

theorem size_eq_keys_length (m : StringMap) : m.entries.length = m.keys.length := by
  rw [AList.keys, List.keys, List.length_map]

theorem size_erase_of_mem (m : StringMap) (k : GoString) (hk : k ∈ m) :
    (m.erase k).entries.length + 1 = m.entries.length := by
  have hk2 : k ∈ m.keys := hk
  have hpos : 0 < m.keys.length := List.length_pos_of_mem hk2
  have hlen := @List.length_erase_of_mem GoString instBEqOfDecidableEq inferInstance
    k m.keys hk2
  rw [size_eq_keys_length, size_eq_keys_length, AList.keys_erase, hlen]
  omega

/-! ## Facts about single handler calls -/

/-- The result of `postDataHandler` on a body that decodes. -/
theorem postDataHandler_ok (decode : Decoder) (s : Server) (r : Request) (pairs : StringMap)
    (hdec : decode r.body = .ok pairs) :
    postDataHandler decode s r
      = ({ data := mergeInto s.data pairs, requests := s.requests.incr }, noContent) := by
  simp only [postDataHandler, hdec]

/-- The result of `postDataHandler` on a body that fails to decode. -/
theorem postDataHandler_error (decode : Decoder) (s : Server) (r : Request) (err : GoString)
    (hdec : decode r.body = .error err) :
    postDataHandler decode s r = (s, httpError err StatusBadRequest) := by
  simp only [postDataHandler, hdec]

/-- The result of `getDataHandler` on the path `/data/<key>`. -/
theorem getDataHandler_keyPath (s : Server) (key b : GoString) :
    getDataHandler s ⟨keyPath key, b⟩
      = some (match s.data.lookup key with
          | none => httpError (utf8 "Key not found") StatusNotFound
          | some value => writeString value) := by
  simp only [getDataHandler, sliceFrom_keyPath]
  cases s.data.lookup key <;> rfl

/-- The result of `deleteDataHandler` on the path `/data/<key>`. -/
theorem deleteDataHandler_keyPath (s : Server) (key b : GoString) :
    deleteDataHandler s ⟨keyPath key, b⟩
      = some ({ data := s.data.erase key, requests := s.requests }, noContent) := by
  simp only [deleteDataHandler, sliceFrom_keyPath]

/-! ## Facts about steps and runs -/

/-- A step that neither upserts nor deletes `k` does not change the lookup of `k`. -/
theorem step_lookup_of_untouched (decode : Decoder) (s : Server) (op : Op) (k : GoString)
    (hu : upsertsKey decode k op = false) (hd : deletesKey k op = false) :
    (step decode s op).data.lookup k = s.data.lookup k := by
  cases op with
  | post r =>
    simp only [upsertsKey, upserted] at hu
    simp only [step, postDataHandler]
    cases hdec : decode r.body with
    | error err => rfl
    | ok data =>
      rw [hdec] at hu
      exact lookup_mergeInto_of_not_mem _ _ _ (by simpa using hu)
  | get r => rfl
  | stats r => rfl
  | delete r =>
    simp only [deletesKey, decide_eq_false_iff_not] at hd
    simp only [step, deleteDataHandler]
    cases hs : sliceFrom r.path (len (utf8 "/data/")) with
    | none => rfl
    | some key =>
      rw [hs] at hd
      exact AList.lookup_erase_ne fun h => hd (by rw [h])

/-- A step that does not upsert `k` keeps `k` absent. -/
theorem step_lookup_none (decode : Decoder) (s : Server) (op : Op) (k : GoString)
    (hu : upsertsKey decode k op = false) (hn : s.data.lookup k = none) :
    (step decode s op).data.lookup k = none := by
  by_cases hd : deletesKey k op = false
  · rw [step_lookup_of_untouched decode s op k hu hd, hn]
  · cases op with
    | delete r =>
      simp only [deletesKey, decide_eq_false_iff_not, not_not] at hd
      simp only [step, deleteDataHandler, hd]
      exact AList.lookup_erase k s.data
    | post r => simp [deletesKey] at hd
    | get r => simp [deletesKey] at hd
    | stats r => simp [deletesKey] at hd

/-- After a delete whose path yields `k`, the key `k` is absent. -/
theorem step_delete_lookup (decode : Decoder) (s : Server) (r : Request) (k : GoString)
    (hd : deletesKey k (Op.delete r) = true) :
    (step decode s (Op.delete r)).data.lookup k = none := by
  simp only [deletesKey, decide_eq_true_eq] at hd
  simp only [step, deleteDataHandler, hd]
  exact AList.lookup_erase k s.data

theorem run_lookup_of_untouched (decode : Decoder) (ops : List Op) (s : Server) (k : GoString)
    (h : ∀ op ∈ ops, upsertsKey decode k op = false ∧ deletesKey k op = false) :
    (run decode s ops).data.lookup k = s.data.lookup k := by
  induction ops generalizing s with
  | nil => rfl
  | cons op ops ih =>
    have hop := h op (List.mem_cons_self _ _)
    have hrest : ∀ o ∈ ops, upsertsKey decode k o = false ∧ deletesKey k o = false :=
      fun o ho => h o (List.mem_cons_of_mem _ ho)
    show (run decode (step decode s op) ops).data.lookup k = _
    rw [ih _ hrest, step_lookup_of_untouched decode s op k hop.1 hop.2]

theorem run_lookup_none (decode : Decoder) (ops : List Op) (s : Server) (k : GoString)
    (h : ∀ op ∈ ops, upsertsKey decode k op = false) (hn : s.data.lookup k = none) :
    (run decode s ops).data.lookup k = none := by
  induction ops generalizing s with
  | nil => exact hn
  | cons op ops ih =>
    show (run decode (step decode s op) ops).data.lookup k = _
    exact ih _ (fun o ho => h o (List.mem_cons_of_mem _ ho))
      (step_lookup_none decode s op k (h op (List.mem_cons_self _ _)) hn)

theorem run_append (decode : Decoder) (s : Server) (xs ys : List Op) :
    run decode s (xs ++ ys) = run decode (run decode s xs) ys := by
  simp [run, List.foldl_append]

theorem step_requests (decode : Decoder) (s : Server) (op : Op) :
    (step decode s op).requests.val
      = wrapInt (s.requests.val + (acceptedCount decode [op] : Nat)) := by
  have hsame : wrapInt (s.requests.val + ((0 : Nat) : Int)) = s.requests.val := by
    rw [Nat.cast_zero, Int.add_zero]
    exact wrapInt_of_range _ s.requests.property
  cases op with
  | post r =>
    simp only [step, postDataHandler, acceptedCount, upserted, List.filter]
    cases hdec : decode r.body with
    | error err => simpa using hsame.symm
    | ok data => simp [GoInt.incr]
  | get r => simpa [step, acceptedCount, upserted] using hsame.symm
  | stats r => simpa [step, acceptedCount, upserted] using hsame.symm
  | delete r =>
    simp only [step, deleteDataHandler, acceptedCount, upserted]
    cases sliceFrom r.path (len (utf8 "/data/")) <;> simpa using hsame.symm

theorem acceptedCount_cons (decode : Decoder) (op : Op) (ops : List Op) :
    acceptedCount decode (op :: ops) = acceptedCount decode [op] + acceptedCount decode ops := by
  simp only [acceptedCount, List.filter]
  cases (upserted decode op).isSome <;> simp [Nat.add_comm]

/-- The counter after a run is the initial counter plus the number of accepted
upserts, wrapped into the range of `int`. -/
theorem run_requests (decode : Decoder) (ops : List Op) (s : Server) :
    (run decode s ops).requests.val
      = wrapInt (s.requests.val + (acceptedCount decode ops : Nat)) := by
  induction ops generalizing s with
  | nil =>
    simp only [run, acceptedCount, List.filter, List.foldl, List.length_nil, Nat.cast_zero,
      Int.add_zero]
    exact (wrapInt_of_range _ s.requests.property).symm
  | cons op ops ih =>
    show (run decode (step decode s op) ops).requests.val = _
    rw [ih, step_requests, acceptedCount_cons decode op ops, wrapInt_add]
    push_cast
    rw [Int.add_assoc]

theorem step_keys (decode : Decoder) (s : Server) (op : Op) (hnd : isDelete op = false) :
    (step decode s op).data.keys.toFinset
      = s.data.keys.toFinset ∪ (upsertedKeys decode [op]).toFinset := by
  cases op with
  | post r =>
    simp only [step, postDataHandler, upsertedKeys, upserted, List.flatMap_cons,
      List.flatMap_nil, List.append_nil]
    cases hdec : decode r.body with
    | error err => simp
    | ok data => exact keys_mergeInto _ _
  | get r => simp [step, upsertedKeys, upserted]
  | stats r => simp [step, upsertedKeys, upserted]
  | delete r => simp [isDelete] at hnd

/-- The key set after a delete-free run is the initial key set plus every upserted key. -/
theorem run_keys (decode : Decoder) (ops : List Op) (s : Server)
    (hnd : ∀ op ∈ ops, isDelete op = false) :
    (run decode s ops).data.keys.toFinset
      = s.data.keys.toFinset ∪ (upsertedKeys decode ops).toFinset := by
  induction ops generalizing s with
  | nil => simp [run, upsertedKeys]
  | cons op ops ih =>
    show (run decode (step decode s op) ops).data.keys.toFinset = _
    rw [ih _ (fun o ho => hnd o (List.mem_cons_of_mem _ ho)),
      step_keys decode s op (hnd op (List.mem_cons_self _ _))]
    simp only [upsertedKeys, List.flatMap_cons, List.flatMap_nil, List.append_nil,
      List.toFinset_append, Finset.union_assoc]

/-- The number of entries after a delete-free run from `NewServer` is the number of
distinct upserted keys. -/
theorem run_size (decode : Decoder) (ops : List Op) (hnd : ∀ op ∈ ops, isDelete op = false) :
    (run decode NewServer ops).data.entries.length
      = (upsertedKeys decode ops).dedup.length := by
  rw [size_eq_card, run_keys decode ops NewServer hnd, ← List.card_toFinset]
  simp [NewServer]

/-- Repeating one accepted upsert `n` times counts `n` accepted upserts. -/
theorem acceptedCount_replicate (decode : Decoder) (op : Op) (n : Nat)
    (hop : (upserted decode op).isSome = true) :
    acceptedCount decode (List.replicate n op) = n := by
  induction n with
  | zero => rfl
  | succ n ih =>
    rw [List.replicate_succ, acceptedCount_cons, ih]
    simp [acceptedCount, List.filter, hop, Nat.add_comm]

/-- Repeating an upsert of the empty map upserts no key. -/
theorem upsertedKeys_replicate (decode : Decoder) (op : Op) (n : Nat)
    (hop : upserted decode op = some ∅) :
    upsertedKeys decode (List.replicate n op) = [] := by
  induction n with
  | zero => rfl
  | succ n ih =>
    have hcons : upsertedKeys decode (op :: List.replicate n op)
        = (∅ : StringMap).keys ++ upsertedKeys decode (List.replicate n op) := by
      simp only [upsertedKeys, List.flatMap_cons, hop]
    rw [List.replicate_succ, hcons, ih]
    rfl

/-! ## The contract of the store -/

/-- Counterexample to C1 as stated: on a store whose counter is `MaxInt`, an accepted
upsert leaves the counter at `MinInt`, not at its previous value plus one. -/
theorem postDataHandler_counter_wraps :
    sampleDecode bodyEmpty = .ok ∅ ∧
    maxedServer.requests.val = 9223372036854775807 ∧
    (postDataHandler sampleDecode maxedServer ⟨utf8 "/data", bodyEmpty⟩).1.requests.val
      = -9223372036854775808 ∧
    (postDataHandler sampleDecode maxedServer ⟨utf8 "/data", bodyEmpty⟩).1.requests.val
      ≠ maxedServer.requests.val + 1 :=
  ⟨rfl, rfl, by decide, by decide⟩

/-- C1, amended: for every store state and every successfully decoded mapping `pairs`
(the empty one included), `postDataHandler` leaves a store in which every key of
`pairs` maps to its value from `pairs` and every key outside `pairs` has exactly its
previous value or absence; `requests` is its previous value plus one whenever that
value is below `MaxInt`, and is `MinInt` when that value is `MaxInt`. -/
theorem postDataHandler_upsert (decode : Decoder) (s : Server) (r : Request)
    (pairs : StringMap) (hdec : decode r.body = .ok pairs) :
    (∀ k v, pairs.lookup k = some v →
        (postDataHandler decode s r).1.data.lookup k = some v) ∧
    (∀ k, k ∉ pairs →
        (postDataHandler decode s r).1.data.lookup k = s.data.lookup k) ∧
    (s.requests.val < MaxInt →
        (postDataHandler decode s r).1.requests.val = s.requests.val + 1) ∧
    (s.requests.val = MaxInt →
        (postDataHandler decode s r).1.requests.val = MinInt) := by
  rw [postDataHandler_ok decode s r pairs hdec]
  exact ⟨fun k v hv => lookup_mergeInto_of_lookup s.data pairs k v hv,
    fun k hk => lookup_mergeInto_of_not_mem s.data pairs k hk,
    incr_of_lt s.requests, incr_of_eq s.requests⟩

/-- Witness for C1: `{"a":"1","b":"2"}` posted to the store holding `a` with value
`0` and `c` with value `3` and counter 7: `a` is overwritten, `b` is added, `c` is
kept and the counter is 8. -/
theorem postDataHandler_upsert_witness :
    sampleDecode bodyAB = .ok pairsAB ∧
    storeAC.requests.val < MaxInt ∧
    storeAC.data.lookup (utf8 "a") = some (utf8 "0") ∧
    (postDataHandler sampleDecode storeAC ⟨utf8 "/data", bodyAB⟩).1.data.lookup (utf8 "a")
      = some (utf8 "1") ∧
    (postDataHandler sampleDecode storeAC ⟨utf8 "/data", bodyAB⟩).1.data.lookup (utf8 "b")
      = some (utf8 "2") ∧
    (postDataHandler sampleDecode storeAC ⟨utf8 "/data", bodyAB⟩).1.data.lookup (utf8 "c")
      = some (utf8 "3") ∧
    (postDataHandler sampleDecode storeAC ⟨utf8 "/data", bodyAB⟩).1.requests.val = 8 :=
  have h := postDataHandler_upsert sampleDecode storeAC ⟨utf8 "/data", bodyAB⟩ pairsAB rfl
  ⟨rfl, by decide, by decide, h.1 (utf8 "a") (utf8 "1") (by decide),
    h.1 (utf8 "b") (utf8 "2") (by decide),
    (h.2.1 (utf8 "c") (by decide)).trans (by decide),
    (h.2.2.1 (by decide)).trans (by decide)⟩

/-- C2 (read-after-write): once `postDataHandler` has accepted the body `{k: v}`,
`getDataHandler` on `/data/k` answers 200 with the body exactly `v`, and still
does after any sequence of operations none of which is an accepted upsert
containing `k` or a delete of `k`. -/
theorem read_after_write (decode : Decoder) (s : Server) (r : Request) (k v b : GoString)
    (ops : List Op) (hdec : decode r.body = .ok (AList.singleton k v))
    (hops : ∀ op ∈ ops, upsertsKey decode k op = false ∧ deletesKey k op = false) :
    getDataHandler (run decode (postDataHandler decode s r).1 ops) ⟨keyPath k, b⟩
      = some { status := StatusOK, body := v } := by
  have hpost : (postDataHandler decode s r).1.data.lookup k = some v := by
    rw [postDataHandler_ok decode s r _ hdec]
    exact lookup_mergeInto_of_lookup _ _ k v (lookup_singleton_self k v)
  have hrun := run_lookup_of_untouched decode ops (postDataHandler decode s r).1 k hops
  rw [getDataHandler_keyPath, hrun, hpost]
  rfl

/-- Witness for C2: `{"a":"1"}` is accepted by a fresh server; an upsert of `b`, a
get, a stats call, a delete of `b` and a rejected POST follow. -/
theorem read_after_write_witness :
    sampleDecode bodyA = .ok (AList.singleton (utf8 "a") (utf8 "1")) ∧
    (∀ op ∈ [Op.post ⟨utf8 "/data", bodyB⟩, Op.get ⟨utf8 "/data/a", []⟩,
        Op.stats ⟨utf8 "/stats", []⟩, Op.delete ⟨utf8 "/data/b", []⟩,
        Op.post ⟨utf8 "/data", bodyNotJson⟩],
      upsertsKey sampleDecode (utf8 "a") op = false ∧ deletesKey (utf8 "a") op = false) ∧
    getDataHandler
      (run sampleDecode (postDataHandler sampleDecode NewServer ⟨utf8 "/data", bodyA⟩).1
        [Op.post ⟨utf8 "/data", bodyB⟩, Op.get ⟨utf8 "/data/a", []⟩,
          Op.stats ⟨utf8 "/stats", []⟩, Op.delete ⟨utf8 "/data/b", []⟩,
          Op.post ⟨utf8 "/data", bodyNotJson⟩])
      ⟨keyPath (utf8 "a"), []⟩ = some { status := StatusOK, body := utf8 "1" } :=
  ⟨rfl, by decide,
    read_after_write sampleDecode NewServer ⟨utf8 "/data", bodyA⟩ (utf8 "a") (utf8 "1") [] _
      rfl (by decide)⟩

/-- Counterexample to C3 as stated: on the store made by `NewServer`, where `c` was
never upserted, the 404 response for `/data/c` does not have the body
`Key not found`; `http.Error` writes the message followed by a line feed. -/
theorem not_found_body_counterexample :
    getDataHandler (run sampleDecode NewServer []) ⟨utf8 "/data/c", []⟩
        ≠ some { status := 404, body := utf8 "Key not found" } ∧
    getDataHandler (run sampleDecode NewServer []) ⟨utf8 "/data/c", []⟩
        = some { status := 404, body := utf8 "Key not found\n" } := by
  decide

/-- C3, amended (not-found contract): starting from the store made by `NewServer`,
after every sequence of operations in which `k` was never upserted, or in which a
delete of `k` is followed by no accepted upsert containing `k`, `getDataHandler`
for `k` answers with status 404 and the body `Key not found` followed by a line
feed, and writes no value. -/
theorem not_found_contract (decode : Decoder) (k b : GoString) (ops : List Op)
    (h : (∀ op ∈ ops, upsertsKey decode k op = false) ∨
      ∃ before r after, ops = before ++ Op.delete r :: after ∧
        deletesKey k (Op.delete r) = true ∧ ∀ op ∈ after, upsertsKey decode k op = false) :
    getDataHandler (run decode NewServer ops) ⟨keyPath k, b⟩
      = some { status := StatusNotFound, body := utf8 "Key not found\n" } := by
  have hnone : (run decode NewServer ops).data.lookup k = none := by
    rcases h with h | ⟨before, r, after, rfl, hd, hafter⟩
    · exact run_lookup_none decode ops NewServer k h (AList.lookup_empty k)
    · rw [run_append]
      show (run decode (step decode (run decode NewServer before) (Op.delete r)) after).data.lookup k
        = none
      exact run_lookup_none decode after _ k hafter (step_delete_lookup decode _ r k hd)
  rw [getDataHandler_keyPath, hnone]
  decide

/-- Witness for C3: `a` is upserted, then deleted, then `b` is upserted. -/
theorem not_found_contract_witness :
    ((∀ op ∈ [Op.post ⟨utf8 "/data", bodyA⟩, Op.delete ⟨utf8 "/data/a", []⟩,
          Op.post ⟨utf8 "/data", bodyB⟩],
        upsertsKey sampleDecode (utf8 "a") op = false) ∨
      ∃ before r after,
        [Op.post ⟨utf8 "/data", bodyA⟩, Op.delete ⟨utf8 "/data/a", []⟩,
            Op.post ⟨utf8 "/data", bodyB⟩]
          = before ++ Op.delete r :: after ∧
        deletesKey (utf8 "a") (Op.delete r) = true ∧
        ∀ op ∈ after, upsertsKey sampleDecode (utf8 "a") op = false) ∧
    getDataHandler
      (run sampleDecode NewServer
        [Op.post ⟨utf8 "/data", bodyA⟩, Op.delete ⟨utf8 "/data/a", []⟩,
          Op.post ⟨utf8 "/data", bodyB⟩])
      ⟨keyPath (utf8 "a"), []⟩
      = some { status := StatusNotFound, body := utf8 "Key not found\n" } :=
  have h : (∀ op ∈ [Op.post ⟨utf8 "/data", bodyA⟩, Op.delete ⟨utf8 "/data/a", []⟩,
        Op.post ⟨utf8 "/data", bodyB⟩], upsertsKey sampleDecode (utf8 "a") op = false) ∨
      ∃ before r after,
        [Op.post ⟨utf8 "/data", bodyA⟩, Op.delete ⟨utf8 "/data/a", []⟩,
            Op.post ⟨utf8 "/data", bodyB⟩]
          = before ++ Op.delete r :: after ∧
        deletesKey (utf8 "a") (Op.delete r) = true ∧
        ∀ op ∈ after, upsertsKey sampleDecode (utf8 "a") op = false :=
    Or.inr ⟨[Op.post ⟨utf8 "/data", bodyA⟩], ⟨utf8 "/data/a", []⟩,
      [Op.post ⟨utf8 "/data", bodyB⟩], rfl, by decide, by decide⟩
  ⟨h, not_found_contract sampleDecode (utf8 "a") [] _ h⟩

/-- C4: for every store state and every body whose decoding fails, `postDataHandler`
answers with status 400 and the decoder's error text (as written by `http.Error`)
and leaves the store exactly as it was, entries and counter; on a fresh store the
counter stays 0. -/
theorem postDataHandler_reject (decode : Decoder) (s : Server) (r : Request) (err : GoString)
    (hdec : decode r.body = .error err) :
    (postDataHandler decode s r).2 = { status := 400, body := err ++ utf8 "\n" } ∧
    (postDataHandler decode s r).1 = s ∧
    (postDataHandler decode s r).1.data = s.data ∧
    (postDataHandler decode s r).1.requests = s.requests ∧
    (postDataHandler decode NewServer r).1.requests.val = 0 := by
  rw [postDataHandler_error decode s r err hdec, postDataHandler_error decode NewServer r err hdec]
  exact ⟨rfl, rfl, rfl, rfl, rfl⟩

/-- Witness for C4: the body `not-json` posted to a fresh server. -/
theorem postDataHandler_reject_witness :
    sampleDecode bodyNotJson
      = .error (utf8 "invalid character \x27o\x27 in literal null (expecting \x27u\x27)") ∧
    (postDataHandler sampleDecode NewServer ⟨utf8 "/data", bodyNotJson⟩).2
      = { status := 400,
          body := utf8 "invalid character \x27o\x27 in literal null (expecting \x27u\x27)"
            ++ utf8 "\n" } ∧
    (postDataHandler sampleDecode NewServer ⟨utf8 "/data", bodyNotJson⟩).1 = NewServer ∧
    (postDataHandler sampleDecode NewServer ⟨utf8 "/data", bodyNotJson⟩).1.data
      = NewServer.data ∧
    (postDataHandler sampleDecode NewServer ⟨utf8 "/data", bodyNotJson⟩).1.requests
      = NewServer.requests ∧
    (postDataHandler sampleDecode NewServer ⟨utf8 "/data", bodyNotJson⟩).1.requests.val = 0 :=
  ⟨rfl, postDataHandler_reject sampleDecode NewServer ⟨utf8 "/data", bodyNotJson⟩ _ rfl⟩

/-- Counterexample to C5 as stated: after the 2^63 accepted upserts of `manyPosts`
on the store made by `NewServer`, with no delete, `statsHandler` writes
`Requests: -9223372036854775808`, not `Requests: 9223372036854775808`. -/
theorem stats_counter_wraps :
    (∀ op ∈ manyPosts, isDelete op = false) ∧
    acceptedCount sampleDecode manyPosts = 9223372036854775808 ∧
    (upsertedKeys sampleDecode manyPosts).dedup.length = 0 ∧
    statsHandler (run sampleDecode NewServer manyPosts) ⟨utf8 "/stats", []⟩
      = { status := 200, body := utf8 "Requests: -9223372036854775808, Data size: 0\n" } ∧
    statsHandler (run sampleDecode NewServer manyPosts) ⟨utf8 "/stats", []⟩
      ≠ { status := 200, body := utf8 "Requests: 9223372036854775808, Data size: 0\n" } := by
  have hnd : ∀ op ∈ manyPosts, isDelete op = false := by
    intro op hop
    rw [manyPosts, List.mem_replicate] at hop
    rw [hop.2]
    rfl
  have hcount : acceptedCount sampleDecode manyPosts = 9223372036854775808 :=
    acceptedCount_replicate sampleDecode _ _ rfl
  have hkeys : upsertedKeys sampleDecode manyPosts = [] :=
    upsertedKeys_replicate sampleDecode _ _ rfl
  have hreq : (run sampleDecode NewServer manyPosts).requests.val = -9223372036854775808 := by
    rw [run_requests, hcount]
    decide
  have hsize : (run sampleDecode NewServer manyPosts).data.entries.length = 0 := by
    rw [run_size sampleDecode manyPosts hnd, hkeys]
    rfl
  have hbody : statsHandler (run sampleDecode NewServer manyPosts) ⟨utf8 "/stats", []⟩
      = { status := 200, body := utf8 "Requests: -9223372036854775808, Data size: 0\n" } := by
    simp only [statsHandler, hreq, hsize]
    decide
  refine ⟨hnd, hcount, by rw [hkeys]; rfl, hbody, ?_⟩
  rw [hbody]
  decide

/-- C5, amended (stats consistency): starting from the store made by `NewServer`,
after any sequence of operations without deletes, `statsHandler` writes exactly
`Requests: <c>, Data size: <m>` and a line feed, where `m` is the number of distinct
keys occurring in the accepted upserts and `c` is their number `n` reduced into the
range of `int`; so `c` is `n` whenever `n` is at most `MaxInt`. -/
theorem stats_consistency (decode : Decoder) (ops : List Op) (r : Request)
    (hnd : ∀ op ∈ ops, isDelete op = false) :
    statsHandler (run decode NewServer ops) r
      = { status := StatusOK,
          body := utf8 ("Requests: " ++ toString (wrapInt (acceptedCount decode ops : Nat))
            ++ ", Data size: " ++ toString (upsertedKeys decode ops).dedup.length ++ "\n") } ∧
    ((acceptedCount decode ops : Int) ≤ MaxInt →
      statsHandler (run decode NewServer ops) r
        = { status := StatusOK,
            body := utf8 ("Requests: " ++ toString (acceptedCount decode ops)
              ++ ", Data size: " ++ toString (upsertedKeys decode ops).dedup.length
              ++ "\n") }) := by
  have hreq : (run decode NewServer ops).requests.val
      = wrapInt (acceptedCount decode ops : Nat) := by
    rw [run_requests]
    show wrapInt ((0 : Int) + _) = _
    rw [Int.zero_add]
  have hsize := run_size decode ops hnd
  have hbody : statsHandler (run decode NewServer ops) r
      = { status := StatusOK,
          body := utf8 ("Requests: " ++ toString (wrapInt (acceptedCount decode ops : Nat))
            ++ ", Data size: " ++ toString (upsertedKeys decode ops).dedup.length
            ++ "\n") } := by
    simp only [statsHandler, statsLine, writeString, hreq, hsize]
  refine ⟨hbody, fun hle => ?_⟩
  have hwrap : wrapInt (acceptedCount decode ops : Nat) = (acceptedCount decode ops : Nat) :=
    wrapInt_of_range _ ⟨by unfold MinInt; omega, hle⟩
  rw [hbody, hwrap, toString_natCast]

/-- Witness for C5: after the single upsert `{"a":"1","b":"2"}` the body is
`Requests: 1, Data size: 2` and a line feed. -/
theorem stats_consistency_witness :
    (∀ op ∈ [Op.post ⟨utf8 "/data", bodyAB⟩], isDelete op = false) ∧
    (acceptedCount sampleDecode [Op.post ⟨utf8 "/data", bodyAB⟩] : Int) ≤ MaxInt ∧
    statsHandler (run sampleDecode NewServer [Op.post ⟨utf8 "/data", bodyAB⟩])
        ⟨utf8 "/stats", []⟩
      = { status := StatusOK, body := utf8 "Requests: 1, Data size: 2\n" } :=
  ⟨by decide, by decide,
    (stats_consistency sampleDecode [Op.post ⟨utf8 "/data", bodyAB⟩] ⟨utf8 "/stats", []⟩
      (by decide)).2 (by decide)⟩

/-- Counterexample to C6 as stated: on a store whose counter is `MaxInt`, upserting
`{"a":"1"}` and then `{"b":"2"}` leaves the counter at `MinInt + 1`, not at its
previous value plus two, and upserting `{"a":"1","b":"2"}` once leaves it at `MinInt`,
not at its previous value plus one. -/
theorem upsert_merge_counter_wraps :
    sampleDecode bodyA = .ok (AList.singleton (utf8 "a") (utf8 "1")) ∧
    sampleDecode bodyB = .ok (AList.singleton (utf8 "b") (utf8 "2")) ∧
    sampleDecode bodyAB = .ok pairsAB ∧
    AList.Disjoint (AList.singleton (utf8 "a") (utf8 "1") : StringMap)
      (AList.singleton (utf8 "b") (utf8 "2")) ∧
    pairsAB.entries
      = ((AList.singleton (utf8 "a") (utf8 "1") : StringMap)
          ∪ AList.singleton (utf8 "b") (utf8 "2")).entries ∧
    maxedServer.requests.val = 9223372036854775807 ∧
    (postDataHandler sampleDecode
        (postDataHandler sampleDecode maxedServer ⟨utf8 "/data", bodyA⟩).1
        ⟨utf8 "/data", bodyB⟩).1.requests.val = -9223372036854775807 ∧
    (postDataHandler sampleDecode
        (postDataHandler sampleDecode maxedServer ⟨utf8 "/data", bodyA⟩).1
        ⟨utf8 "/data", bodyB⟩).1.requests.val ≠ maxedServer.requests.val + 2 ∧
    (postDataHandler sampleDecode maxedServer ⟨utf8 "/data", bodyAB⟩).1.requests.val
      = -9223372036854775808 ∧
    (postDataHandler sampleDecode maxedServer ⟨utf8 "/data", bodyAB⟩).1.requests.val
      ≠ maxedServer.requests.val + 1 := by
  refine ⟨rfl, rfl, rfl, ?_, by decide, rfl, by decide, by decide, by decide, by decide⟩
  intro k hk
  simp only [AList.keys_singleton, List.mem_singleton] at hk ⊢
  subst hk
  decide

/-- C6, amended (upsert merge semantics): for every store state and pair sets `A`,
`B` with disjoint keys, upserting `A` and then `B` leaves the same entries as
upserting their union once, namely the previous entries overridden by the union; the
two-step sequence raises `requests` by exactly 2 whenever the result does not exceed
`MaxInt`, and the single upsert raises it by exactly 1 whenever the result does not
exceed `MaxInt`; in general the counters are the previous value plus 2 and plus 1
reduced into the range of `int`. -/
theorem upsert_merge (decode : Decoder) (s : Server) (rA rB rU : Request)
    (A B U : StringMap) (hA : decode rA.body = .ok A) (hB : decode rB.body = .ok B)
    (hU : decode rU.body = .ok U) (hunion : U.entries.Perm (A ∪ B).entries)
    (hdisj : AList.Disjoint A B) :
    (postDataHandler decode (postDataHandler decode s rA).1 rB).1.data.entries.Perm
        (postDataHandler decode s rU).1.data.entries ∧
    (∀ k, (postDataHandler decode (postDataHandler decode s rA).1 rB).1.data.lookup k
        = (postDataHandler decode s rU).1.data.lookup k) ∧
    (∀ k v, (A ∪ B).lookup k = some v →
        (postDataHandler decode s rU).1.data.lookup k = some v) ∧
    (∀ k, k ∉ A ∪ B → (postDataHandler decode s rU).1.data.lookup k = s.data.lookup k) ∧
    (s.requests.val + 2 ≤ MaxInt →
      (postDataHandler decode (postDataHandler decode s rA).1 rB).1.requests.val
        = s.requests.val + 2) ∧
    (s.requests.val + 1 ≤ MaxInt →
      (postDataHandler decode s rU).1.requests.val = s.requests.val + 1) ∧
    (postDataHandler decode (postDataHandler decode s rA).1 rB).1.requests.val
        = wrapInt (s.requests.val + 2) ∧
    (postDataHandler decode s rU).1.requests.val = wrapInt (s.requests.val + 1) := by
  rw [postDataHandler_ok decode _ rB B hB, postDataHandler_ok decode s rA A hA,
    postDataHandler_ok decode s rU U hU]
  have hlk : ∀ k, U.lookup k = (A ∪ B).lookup k := fun k => AList.perm_lookup hunion
  have hmem : ∀ k, k ∈ U ↔ k ∈ A ∪ B := fun k => AList.mem_of_perm hunion
  have hsame : ∀ k, (mergeInto (mergeInto s.data A) B).lookup k
      = (mergeInto s.data U).lookup k := by
    intro k
    by_cases hkB : k ∈ B
    · obtain ⟨v, hv⟩ := Option.isSome_iff_exists.mp (AList.lookup_isSome.mpr hkB)
      have hkA : k ∉ A := fun hkA => hdisj k hkA hkB
      rw [lookup_mergeInto_of_lookup _ B k v hv,
        lookup_mergeInto_of_lookup _ U k v
          (by rw [hlk, AList.lookup_union_right hkA, hv])]
    · rw [lookup_mergeInto_of_not_mem _ B k hkB]
      by_cases hkA : k ∈ A
      · obtain ⟨v, hv⟩ := Option.isSome_iff_exists.mp (AList.lookup_isSome.mpr hkA)
        rw [lookup_mergeInto_of_lookup _ A k v hv,
          lookup_mergeInto_of_lookup _ U k v
            (by rw [hlk, AList.lookup_union_left hkA, hv])]
      · rw [lookup_mergeInto_of_not_mem _ A k hkA,
          lookup_mergeInto_of_not_mem _ U k
            (by rw [hmem, AList.mem_union]; exact not_or.mpr ⟨hkA, hkB⟩)]
  have htwo : s.requests.incr.incr.val = wrapInt (s.requests.val + 2) := by
    show wrapInt (wrapInt (s.requests.val + 1) + 1) = _
    rw [wrapInt_add, Int.add_assoc]
    rfl
  have hlow := s.requests.property.1
  refine ⟨?_, hsame, ?_, ?_, ?_, ?_, htwo, rfl⟩
  · exact List.lookup_ext (AList.nodupKeys _) (AList.nodupKeys _) fun k v => by
      have := hsame k
      simp only [AList.lookup] at this
      rw [this]
  · intro k v hv
    exact lookup_mergeInto_of_lookup _ U k v (by rw [hlk, hv])
  · intro k hk
    exact lookup_mergeInto_of_not_mem _ U k (by rw [hmem]; exact hk)
  · intro hle
    show s.requests.incr.incr.val = _
    rw [htwo]
    exact wrapInt_of_range _ ⟨by omega, hle⟩
  · intro hle
    exact incr_of_lt s.requests (by omega)

/-- Witness for C6: `{"a":"1"}` then `{"b":"2"}` against `{"a":"1","b":"2"}` on a
fresh server: both stores hold `a` and `b`, the counters are 2 and 1. -/
theorem upsert_merge_witness :
    sampleDecode bodyA = .ok (AList.singleton (utf8 "a") (utf8 "1")) ∧
    sampleDecode bodyB = .ok (AList.singleton (utf8 "b") (utf8 "2")) ∧
    sampleDecode bodyAB = .ok pairsAB ∧
    pairsAB.entries.Perm
      ((AList.singleton (utf8 "a") (utf8 "1") : StringMap)
        ∪ AList.singleton (utf8 "b") (utf8 "2")).entries ∧
    AList.Disjoint (AList.singleton (utf8 "a") (utf8 "1") : StringMap)
      (AList.singleton (utf8 "b") (utf8 "2")) ∧
    NewServer.requests.val + 2 ≤ MaxInt ∧
    (postDataHandler sampleDecode
        (postDataHandler sampleDecode NewServer ⟨utf8 "/data", bodyA⟩).1
        ⟨utf8 "/data", bodyB⟩).1.data.entries.Perm
      (postDataHandler sampleDecode NewServer ⟨utf8 "/data", bodyAB⟩).1.data.entries ∧
    (postDataHandler sampleDecode
        (postDataHandler sampleDecode NewServer ⟨utf8 "/data", bodyA⟩).1
        ⟨utf8 "/data", bodyB⟩).1.data.lookup (utf8 "a") = some (utf8 "1") ∧
    (postDataHandler sampleDecode NewServer ⟨utf8 "/data", bodyAB⟩).1.data.lookup (utf8 "b")
      = some (utf8 "2") ∧
    (postDataHandler sampleDecode
        (postDataHandler sampleDecode NewServer ⟨utf8 "/data", bodyA⟩).1
        ⟨utf8 "/data", bodyB⟩).1.requests.val = NewServer.requests.val + 2 ∧
    (postDataHandler sampleDecode NewServer ⟨utf8 "/data", bodyAB⟩).1.requests.val
      = NewServer.requests.val + 1 :=
  have hperm : pairsAB.entries.Perm
      ((AList.singleton (utf8 "a") (utf8 "1") : StringMap)
        ∪ AList.singleton (utf8 "b") (utf8 "2")).entries :=
    List.Perm.of_eq (by decide)
  have hdisj : AList.Disjoint (AList.singleton (utf8 "a") (utf8 "1") : StringMap)
      (AList.singleton (utf8 "b") (utf8 "2")) := by
    intro k hk
    simp only [AList.keys_singleton, List.mem_singleton] at hk ⊢
    subst hk
    decide
  have h := upsert_merge sampleDecode NewServer ⟨utf8 "/data", bodyA⟩ ⟨utf8 "/data", bodyB⟩
    ⟨utf8 "/data", bodyAB⟩ (AList.singleton (utf8 "a") (utf8 "1"))
    (AList.singleton (utf8 "b") (utf8 "2")) pairsAB rfl rfl rfl hperm hdisj
  ⟨rfl, rfl, rfl, hperm, hdisj, by decide, h.1,
    (h.2.1 (utf8 "a")).trans (h.2.2.1 (utf8 "a") (utf8 "1") (by decide)),
    h.2.2.1 (utf8 "b") (utf8 "2") (by decide), h.2.2.2.2.1 (by decide),
    h.2.2.2.2.2.1 (by decide)⟩

/-- C7 (idempotent delete): for every store state and key `k`, `deleteDataHandler`
does not fail and writes no error (status 200, empty body); when `k` is absent the
store is left exactly unchanged; deleting `k` twice leaves the same store as
deleting it once, and `k` is absent after the first and after the second delete. -/
theorem delete_idempotent (s : Server) (k b : GoString) :
    (deleteDataHandler s ⟨keyPath k, b⟩).map Prod.snd
        = some { status := StatusOK, body := [] } ∧
    (k ∉ s.data →
      (deleteDataHandler s ⟨keyPath k, b⟩).map Prod.fst = some s) ∧
    ((deleteDataHandler s ⟨keyPath k, b⟩).bind fun once =>
        deleteDataHandler once.1 ⟨keyPath k, b⟩)
      = deleteDataHandler s ⟨keyPath k, b⟩ ∧
    (∀ once, deleteDataHandler s ⟨keyPath k, b⟩ = some once →
      once.1.data.lookup k = none ∧
      ∀ twice, deleteDataHandler once.1 ⟨keyPath k, b⟩ = some twice →
        twice.1.data.lookup k = none) := by
  refine ⟨?_, ?_, ?_, ?_⟩
  · rw [deleteDataHandler_keyPath]
    rfl
  · intro hk
    rw [deleteDataHandler_keyPath, Option.map_some', erase_of_not_mem s.data k hk]
  · rw [deleteDataHandler_keyPath, Option.some_bind, deleteDataHandler_keyPath,
      erase_erase_self]
  · intro once h1
    rw [deleteDataHandler_keyPath, Option.some_inj] at h1
    subst h1
    refine ⟨AList.lookup_erase k s.data, ?_⟩
    intro twice h2
    rw [deleteDataHandler_keyPath, Option.some_inj] at h2
    subst h2
    exact AList.lookup_erase k _

/-- Witness for C7: deleting the absent key `a` from a fresh server, and deleting
it twice. -/
theorem delete_idempotent_witness :
    utf8 "a" ∉ NewServer.data ∧
    (deleteDataHandler NewServer ⟨keyPath (utf8 "a"), []⟩).map Prod.snd
        = some { status := StatusOK, body := [] } ∧
    (deleteDataHandler NewServer ⟨keyPath (utf8 "a"), []⟩).map Prod.fst = some NewServer ∧
    ((deleteDataHandler NewServer ⟨keyPath (utf8 "a"), []⟩).bind fun once =>
        deleteDataHandler once.1 ⟨keyPath (utf8 "a"), []⟩)
      = deleteDataHandler NewServer ⟨keyPath (utf8 "a"), []⟩ :=
  ⟨by decide, (delete_idempotent NewServer (utf8 "a") []).1,
    (delete_idempotent NewServer (utf8 "a") []).2.1 (by decide),
    (delete_idempotent NewServer (utf8 "a") []).2.2.1⟩

/-- C8 (key extraction): for every path `/data/` followed by a string `key`, the
slice `r.URL.Path[len("/data/"):]` is in range and is exactly `key`; `getDataHandler`
looks up exactly `key` and `deleteDataHandler` deletes exactly `key`; the empty
string is an ordinary key, so after an accepted upsert of `{"": v}` a get on
`/data/` returns `v`. -/
theorem key_extraction (decode : Decoder) (s : Server) (key b v : GoString) (r : Request)
    (hdec : decode r.body = .ok (AList.singleton [] v)) :
    sliceFrom (utf8 "/data/" ++ key) (len (utf8 "/data/")) = some key ∧
    getDataHandler s ⟨utf8 "/data/" ++ key, b⟩
      = some (match s.data.lookup key with
          | none => httpError (utf8 "Key not found") StatusNotFound
          | some value => writeString value) ∧
    deleteDataHandler s ⟨utf8 "/data/" ++ key, b⟩
      = some ({ data := s.data.erase key, requests := s.requests }, noContent) ∧
    getDataHandler (postDataHandler decode s r).1 ⟨utf8 "/data/", b⟩
      = some { status := StatusOK, body := v } := by
  refine ⟨sliceFrom_keyPath key, getDataHandler_keyPath s key b,
    deleteDataHandler_keyPath s key b, ?_⟩
  have h := getDataHandler_keyPath (postDataHandler decode s r).1 [] b
  rw [postDataHandler_ok decode s r _ hdec] at h ⊢
  rw [lookup_mergeInto_of_lookup s.data _ [] v (lookup_singleton_self [] v)] at h
  rw [keyPath, List.append_nil] at h
  exact h

/-- Witness for C8: the key `abc`, and the empty key after an upsert of
`{"": "v"}` on a fresh server. -/
theorem key_extraction_witness :
    sampleDecode bodyEmptyKey = .ok (AList.singleton [] (utf8 "v")) ∧
    sliceFrom (utf8 "/data/abc") (len (utf8 "/data/")) = some (utf8 "abc") ∧
    getDataHandler (postDataHandler sampleDecode NewServer ⟨utf8 "/data", bodyEmptyKey⟩).1
      ⟨utf8 "/data/", []⟩ = some { status := StatusOK, body := utf8 "v" } :=
  have h := key_extraction sampleDecode NewServer (utf8 "abc") [] (utf8 "v")
    ⟨utf8 "/data", bodyEmptyKey⟩ rfl
  ⟨rfl, h.1, h.2.2.2⟩

/-- C10 (delete touches only its own key): for every store state and key `k`,
`deleteDataHandler` for `k` leaves every other key with its previous value or
absence, leaves `requests` unchanged, and lowers the number of entries by exactly
one when `k` was present and by nothing when it was absent. -/
theorem delete_frame (s : Server) (k b : GoString) :
    ∃ t resp, deleteDataHandler s ⟨keyPath k, b⟩ = some (t, resp) ∧
      (∀ j, j ≠ k → t.data.lookup j = s.data.lookup j) ∧
      t.requests = s.requests ∧
      (k ∈ s.data → t.data.entries.length + 1 = s.data.entries.length) ∧
      (k ∉ s.data → t.data.entries.length = s.data.entries.length) := by
  refine ⟨_, _, deleteDataHandler_keyPath s k b, ?_, rfl, ?_, ?_⟩
  · intro j hj
    exact AList.lookup_erase_ne hj
  · intro hk
    exact size_erase_of_mem s.data k hk
  · intro hk
    show (s.data.erase k).entries.length = _
    rw [erase_of_not_mem s.data k hk]

/-- Witness for C10: deleting the present key `a` from the store holding `a` and
`b`. -/
theorem delete_frame_witness :
    utf8 "a" ∈ (postDataHandler sampleDecode NewServer ⟨utf8 "/data", bodyAB⟩).1.data ∧
    ∃ t resp,
      deleteDataHandler (postDataHandler sampleDecode NewServer ⟨utf8 "/data", bodyAB⟩).1
        ⟨keyPath (utf8 "a"), []⟩ = some (t, resp) ∧
      (∀ j, j ≠ utf8 "a" → t.data.lookup j
        = (postDataHandler sampleDecode NewServer ⟨utf8 "/data", bodyAB⟩).1.data.lookup j) ∧
      t.requests.val = 1 ∧ t.data.entries.length + 1 = 2 := by
  obtain ⟨t, resp, h1, h2, h3, h4, -⟩ :=
    delete_frame (postDataHandler sampleDecode NewServer ⟨utf8 "/data", bodyAB⟩).1
      (utf8 "a") []
  exact ⟨by decide, t, resp, h1, h2, by rw [h3]; decide, h4 (by decide)⟩

end KVServer
